import Mathlib

/-!
Verification development for the URL-to-local-path mapping and
conflict-resolving fetcher in
`src/download_preserve_path_to_dir_structure.py`.

The Python source is shallowly embedded: strings are Lean `String`s
manipulated through their character lists, filesystem paths relative to the
base save directory are lists of components, the filesystem is a pair of
sets (regular files, directories), and the network is an oracle giving each
URL task its fetch outcome.  Character-level operations (`str.lower`,
regex `\w`/`\s`, percent decoding) are embedded faithfully for code points
below 0x100 (ASCII and Latin-1); the development only evaluates them there.
-/

namespace DlTool

/-- Boolean membership test, used where the Python code tests `in` on a set
or list. -/
def elemB {α : Type} [DecidableEq α] (a : α) (l : List α) : Bool :=
  decide (a ∈ l)

/-- Set-like insertion (Python `set.add` / `dict` keys): append only when
absent. -/
def insertIfAbsent {α : Type} [DecidableEq α] (a : α) (l : List α) : List α :=
  if a ∈ l then l else l ++ [a]

/-- ASCII word character of the regex class `\w`: `[A-Za-z0-9_]`. -/
def asciiWordChar (c : Char) : Bool :=
  decide (65 ≤ c.toNat ∧ c.toNat ≤ 90) || decide (97 ≤ c.toNat ∧ c.toNat ≤ 122) ||
    decide (48 ≤ c.toNat ∧ c.toNat ≤ 57) || decide (c = '_')

/-- Latin-1 word characters matched by Python's Unicode-aware regex `\w`
beyond ASCII: `ª µ º À-Ö Ø-ö ø-ÿ` (code points 0xAA, 0xB5, 0xBA, 0xC0-0xD6,
0xD8-0xF6, 0xF8-0xFF).  The embedding is faithful for code points < 0x100;
higher code points never occur in this development. -/
def latin1WordChar (c : Char) : Bool :=
  decide (c.toNat = 0xAA) || decide (c.toNat = 0xB5) || decide (c.toNat = 0xBA) ||
    decide (0xC0 ≤ c.toNat ∧ c.toNat ≤ 0xD6) || decide (0xD8 ≤ c.toNat ∧ c.toNat ≤ 0xF6) ||
    decide (0xF8 ≤ c.toNat ∧ c.toNat ≤ 0xFF)

/-- Python regex `\w` (str patterns), restricted to code points < 0x100. -/
def pyWordChar (c : Char) : Bool :=
  asciiWordChar c || latin1WordChar c

/-- Python regex `\s` (str patterns), restricted to code points < 0x100:
`[ \t\n\r\f\v\x1c-\x1f\x85\xa0]`. -/
def pySpaceChar (c : Char) : Bool :=
  decide (c.toNat = 32) || decide (9 ≤ c.toNat ∧ c.toNat ≤ 13) ||
    decide (0x1C ≤ c.toNat ∧ c.toNat ≤ 0x1F) || decide (c.toNat = 0x85) ||
    decide (c.toNat = 0xA0)

/-- Python `str.lower`, restricted to code points < 0x100: ASCII `A-Z` and
Latin-1 `À-Þ` (except `×`) shift down by 0x20; everything else unchanged. -/
def pyLower (c : Char) : Char :=
  if 65 ≤ c.toNat ∧ c.toNat ≤ 90 then Char.ofNat (c.toNat + 32)
  else if 0xC0 ≤ c.toNat ∧ c.toNat ≤ 0xDE ∧ c.toNat ≠ 0xD7 then Char.ofNat (c.toNat + 32)
  else c

/-- One pass of `re.sub("[-\\s]+", "-", text)`: each maximal run of
whitespace/hyphen characters becomes a single hyphen.  The boolean records
whether the previous character belonged to such a run. -/
def collapseDashRuns : Bool → List Char → List Char
  | _, [] => []
  | prev, c :: rest =>
    if pySpaceChar c || decide (c = '-') then
      if prev then collapseDashRuns true rest
      else '-' :: collapseDashRuns true rest
    else c :: collapseDashRuns false rest

/-- Python `str.strip("-")`: drop hyphens from both ends. -/
def stripDashes (l : List Char) : List Char :=
  ((l.dropWhile (fun c => c = '-')).reverse.dropWhile (fun c => c = '-')).reverse

/-- Embeds `slugify` (source lines 33-48): lowercase, replace every
character matching `[^\w\s-]` by a hyphen, collapse `[-\s]+` runs to one
hyphen, strip leading/trailing hyphens. -/
def slugify (s : String) : String :=
  if s = "" then ""
  else
    let lowered := s.data.map pyLower
    let replaced := lowered.map fun c =>
      if pyWordChar c || pySpaceChar c || decide (c = '-') then c else '-'
    ⟨stripDashes (collapseDashRuns false replaced)⟩

/-- Modelled from the spec's words (§4.1 step 6) for comparison with
`slugify`: lowercase; any character outside `[A-Za-z0-9_\s-]` becomes a
hyphen; runs of whitespace/hyphens collapse to one hyphen; leading/trailing
hyphens trimmed. -/
def slugifySpec (s : String) : String :=
  let lowered := s.data.map pyLower
  let replaced := lowered.map fun c =>
    if asciiWordChar c || pySpaceChar c || decide (c = '-') then c else '-'
  ⟨stripDashes (collapseDashRuns false replaced)⟩

/-- Index of the last `'.'` in a character list, if any. -/
def lastDotIdx (l : List Char) : Option Nat :=
  (((l.enum).filter fun p => p.2 = '.').map fun p => p.1).getLast?

/-- Embeds `os.path.splitext` for plain filenames (no separators): split at
the last dot provided some earlier character is not a dot (so leading dots
of a dotfile never start an extension). -/
def splitext (name : String) : String × String :=
  match lastDotIdx name.data with
  | none => (name, "")
  | some i =>
    if (name.data.take i).any (fun c => c ≠ '.') then
      (⟨name.data.take i⟩, ⟨name.data.drop i⟩)
    else (name, "")

/-- Embeds `pathlib.PurePath.stem` for plain filenames: the name without its
suffix, where a suffix requires the last dot to sit strictly inside the
name (`0 < i < len - 1`). -/
def pathStem (name : String) : String :=
  match lastDotIdx name.data with
  | none => name
  | some i =>
    if 0 < i ∧ i < name.data.length - 1 then ⟨name.data.take i⟩ else name

/-- Embeds `pathlib.PurePath.suffix` for plain filenames. -/
def pathSuffix (name : String) : String :=
  match lastDotIdx name.data with
  | none => ""
  | some i =>
    if 0 < i ∧ i < name.data.length - 1 then ⟨name.data.drop i⟩ else ""

/-- Python `s.startswith(p)`. -/
def pyStartswith (s p : String) : Bool :=
  p.data.isPrefixOf s.data

/-- Python `s.endswith(p)`. -/
def pyEndswith (s p : String) : Bool :=
  p.data.isSuffixOf s.data

/-- Python `s[n:]` for a nonnegative index measured in characters. -/
def pyDrop (s : String) (n : Nat) : String :=
  ⟨s.data.drop n⟩

/-- Python `len(s)` in characters. -/
def pyLen (s : String) : Nat :=
  s.data.length

/-- Value of a hexadecimal digit. -/
def hexDigitVal (c : Char) : Option Nat :=
  if 48 ≤ c.toNat ∧ c.toNat ≤ 57 then some (c.toNat - 48)
  else if 97 ≤ c.toNat ∧ c.toNat ≤ 102 then some (c.toNat - 87)
  else if 65 ≤ c.toNat ∧ c.toNat ≤ 70 then some (c.toNat - 55)
  else none

/-- Embeds `urllib.parse.unquote` for ASCII escapes: a valid `%XX` with
value < 0x80 becomes that character, anything else is copied literally.
(Multibyte UTF-8 escape sequences are outside this model and never occur in
this development.) -/
def unquoteChars : Nat → List Char → List Char
  | 0, l => l
  | _ + 1, [] => []
  | fuel + 1, '%' :: h1 :: h2 :: rest2 =>
    match hexDigitVal h1, hexDigitVal h2 with
    | some a, some b =>
      if a * 16 + b < 128 then Char.ofNat (a * 16 + b) :: unquoteChars fuel rest2
      else '%' :: unquoteChars fuel (h1 :: h2 :: rest2)
    | _, _ => '%' :: unquoteChars fuel (h1 :: h2 :: rest2)
  | fuel + 1, c :: rest => c :: unquoteChars fuel rest

/-- String wrapper for `unquoteChars`.  Every step consumes at least one
character, so fuel equal to the length covers the whole scan. -/
def unquoteStr (s : String) : String :=
  ⟨unquoteChars s.data.length s.data⟩

/-- Python `s.split(sep)` on a character list. -/
def splitOnChar (sep : Char) : List Char → List (List Char)
  | [] => [[]]
  | c :: rest =>
    match splitOnChar sep rest with
    | [] => if c = sep then [[], []] else [[c]]
    | cur :: others =>
      if c = sep then [] :: cur :: others else (c :: cur) :: others

/-- Python `str.strip()` over our whitespace class. -/
def pyStripWs (l : List Char) : List Char :=
  ((l.dropWhile pySpaceChar).reverse.dropWhile pySpaceChar).reverse

/-- A filesystem path relative to the base save directory, as its list of
components.  The base directory itself is `[]`. -/
abbrev FsPath := List String

/-- A candidate or final save location: the directory components below the
base directory, and the filename. -/
structure SPath where
  dirs : List String
  name : String
deriving DecidableEq, Repr

/-- The full relative path of a save location. -/
def SPath.toFs (p : SPath) : FsPath :=
  p.dirs ++ [p.name]

/-- State of the filesystem below the base directory: regular files and
directories, each as relative paths.  The base directory itself always
exists as a directory. -/
structure Disk where
  files : List FsPath
  dirs : List FsPath
deriving DecidableEq, Repr

/-- `Path.exists()` for a save location. -/
def Disk.existsB (d : Disk) (p : FsPath) : Bool :=
  elemB p d.files || elemB p d.dirs

/-- `Path.is_dir()` for a save location (the base directory `[]` is always a
directory). -/
def Disk.isDirB (d : Disk) (p : FsPath) : Bool :=
  decide (p = []) || elemB p d.dirs

/-- A URL after `urllib.parse.urlparse`: the components the program uses.
The model works post-parse; a URL the parser rejects is representable by an
empty scheme or netloc, which `build_save_path` turns away. -/
structure ParsedUrl where
  scheme : String
  netloc : String
  path : String
  query : String
deriving DecidableEq, Repr

/-- The configuration surface of the program (`argparse` namespace fields
the core reads).  `stripUrlPfx` holds the already-parsed
`--strip-url-prefix` URL; `add_suffix` is `none` for auto-detect, `some ""`
for force-none and `some ".ext"` for a forced literal suffix;
`flatten_to_nth_path` is the raw integer of `--flatten-to-nth-path`. -/
structure Args where
  stripUrlPfx : Option ParsedUrl
  add_suffix : Option String
  skip_existing : Bool
  preserve_query_params : Bool
  deconflict_random_suffix : Bool
  flatten : Bool
  flatten_to_domain : Bool
  flatten_to_nth_path : Option Int
deriving Repr

/-- Python `l[:n]` for a possibly negative `n`. -/
def pySliceUpto {α : Type} (l : List α) (n : Int) : List α :=
  if 0 ≤ n then l.take n.toNat else l.take (((l.length : Int) + n).toNat)

/-- Embeds the prefix-stripping comparison of `build_save_path` (source
lines 79-97), given that scheme and netloc already matched: returns the
remaining encoded path when the prefix applies, else `none`. -/
def stripRemainder (urlPath pfxPath : String) : Option String :=
  if pyStartswith urlPath pfxPath then some (pyDrop urlPath (pyLen pfxPath))
  else if pyLen pfxPath = pyLen urlPath + 1 ∧ pyEndswith pfxPath "/" = true ∧
      pyStartswith pfxPath urlPath = true then some ""
  else if pyLen urlPath = pyLen pfxPath + 1 ∧ pyEndswith urlPath "/" = true ∧
      pyStartswith urlPath pfxPath = true then some ""
  else none

/-- Embeds source lines 65-113: the encoded path used for structure and the
`matched_prefix` flag.  With no configured prefix the flag is `true`
(nothing to match); with a prefix it is `true` exactly when scheme and
netloc match and `stripRemainder` applies. -/
def pathAndMatched (url : ParsedUrl) (args : Args) : String × Bool :=
  match args.stripUrlPfx with
  | none => (url.path, true)
  | some pfx =>
    if url.scheme = pfx.scheme ∧ url.netloc = pfx.netloc then
      match stripRemainder url.path pfx.path with
      | some r => (r, true)
      | none => (url.path, false)
    else (url.path, false)

/-- Embeds source lines 114-118 applied to an encoded path: strip leading
slashes, split on `/`, drop empty components, percent-decode each. -/
def decodedSegmentsFrom (pp : String) : List String :=
  (((splitOnChar '/' (pp.data.dropWhile fun c => c = '/')).map
      fun l => (⟨l⟩ : String)).filter fun s => s ≠ "").map unquoteStr

/-- The decoded structural segments of a URL after prefix stripping. -/
def decodedSegments (url : ParsedUrl) (args : Args) : List String :=
  decodedSegmentsFrom (pathAndMatched url args).1

/-- Embeds `is_dir_like_url_path` (source lines 122-124): the original URL
path ends in `/`, or no decoded segments remain. -/
def isDirLikeOf (url : ParsedUrl) (args : Args) : Bool :=
  pyEndswith url.path "/" || decide (decodedSegments url args = [])

/-- The tentative filename taken from the URL (source lines 125-134): empty
for directory-like paths, else the last decoded segment. -/
def prospectiveOf (url : ParsedUrl) (args : Args) : String :=
  if isDirLikeOf url args then "" else (decodedSegments url args).getLastD ""

/-- The source directory segments kept for deconfliction (source lines
125-134). -/
def sourceSegsOf (url : ParsedUrl) (args : Args) : List String :=
  if isDirLikeOf url args then decodedSegments url args
  else (decodedSegments url args).dropLast

/-- Membership of a dot in a string (Python `"." in s`). -/
def hasDot (s : String) : Bool :=
  s.data.contains '.'

/-- Embeds the suffix-policy filename computation, source lines 135-162:
the three policies (auto-detect / force-none / forced literal suffix) and
the trailing `index` recheck. -/
def computeFilename (pol : Option String) (dl : Bool) (pr : String) : String :=
  let a :=
    match pol with
    | some s =>
      if s = "" then
        if dl || decide (pr = "") then "index" else (splitext pr).1
      else
        if dl then "index" ++ s
        else if pr = "" then "index" ++ s
        else if hasDot pr = false then pr ++ s
        else pr
    | none =>
      if dl then "index" else if pr = "" then "index" else pr
  if a = "" ∧ (dl = true ∨ pr = "") then "index" else a

/-- Embeds the query-preservation splice, source lines 163-168. -/
def spliceQuery (f q : String) : String :=
  (splitext f).1 ++ "_query_" ++ slugify q ++ (splitext f).2

/-- Embeds the flattening-mode directory computation, source lines 175-191. -/
def dirComponentsOf (url : ParsedUrl) (args : Args) (matched : Bool)
    (segs : List String) : List String :=
  if args.flatten || decide (args.flatten_to_nth_path = some 0) then []
  else if args.flatten_to_domain then [url.netloc]
  else
    match args.flatten_to_nth_path with
    | some n => pySliceUpto segs n
    | none =>
      (if matched = false ∧ args.stripUrlPfx ≠ none then [url.netloc]
       else if args.stripUrlPfx = none then [url.netloc]
       else []) ++ segs

/-- The filename `build_save_path` settles on: the suffix-policy result
(source lines 135-162) with the query slug spliced in when enabled (source
lines 163-169). -/
def buildFilename (url : ParsedUrl) (args : Args) : String :=
  if args.preserve_query_params = true ∧ url.query ≠ "" then
    spliceQuery (computeFilename args.add_suffix (isDirLikeOf url args)
      (prospectiveOf url args)) url.query
  else computeFilename args.add_suffix (isDirLikeOf url args) (prospectiveOf url args)

/-- Embeds `build_save_path` (source lines 51-200): candidate save location
(or `none` when undeterminable) and the source directory segments. -/
def build_save_path (url : ParsedUrl) (args : Args) : Option SPath × List String :=
  if url.scheme = "" ∨ url.netloc = "" then (none, [])
  else
    if buildFilename url args = "" then (none, sourceSegsOf url args)
    else
      match (dirComponentsOf url args (pathAndMatched url args).2 (sourceSegsOf url args) ++
          [buildFilename url args]).getLast? with
      | none => (none, sourceSegsOf url args)
      | some last =>
        if last = "" then (none, sourceSegsOf url args)
        else
          (some ⟨dirComponentsOf url args (pathAndMatched url args).2 (sourceSegsOf url args),
            buildFilename url args⟩, sourceSegsOf url args)

/-- Embeds `is_flattening_active` (source lines 236-241 / 446-451). -/
def isFlattening (args : Args) : Bool :=
  args.flatten || decide (args.flatten_to_nth_path = some 0) || args.flatten_to_domain ||
    (match args.flatten_to_nth_path with
     | some n => decide (0 < n)
     | none => false)

/-- Embeds the sequential-numeric fallback loop (source lines 294-317):
candidates `stem_i` for `i = 1, 2, ...`; the first one neither on disk nor
claimed wins; after trying `i = 100` the counter exceeds 100 and the search
fails. -/
def numericFallbackAux (taken : SPath → Bool) (dirs : List String)
    (stemFb sfx : String) : Nat → Nat → Option SPath
  | _, 0 => none
  | counter, fuel + 1 =>
    let cand : SPath := ⟨dirs, stemFb ++ "_" ++ toString counter ++ sfx⟩
    if taken cand then numericFallbackAux taken dirs stemFb sfx (counter + 1) fuel
    else some cand

/-- The numeric fallback: counter starts at 1, capped at 100 attempts. -/
def numericFallback (taken : SPath → Bool) (dirs : List String)
    (stemFb sfx : String) : Option SPath :=
  numericFallbackAux taken dirs stemFb sfx 1 100

/-- Embeds the random-suffix fallback loop (source lines 271-293): up to 100
draws from the random-token oracle `rand`. -/
def randomFallbackAux (taken : SPath → Bool) (dirs : List String)
    (stemFb sfx : String) (rand : Nat → String) : Nat → Nat → Option SPath
  | _, 0 => none
  | i, fuel + 1 =>
    let cand : SPath := ⟨dirs, stemFb ++ "_" ++ rand i ++ sfx⟩
    if taken cand then randomFallbackAux taken dirs stemFb sfx rand (i + 1) fuel
    else some cand

/-- The random fallback: 100 attempts. -/
def randomFallback (taken : SPath → Bool) (dirs : List String)
    (stemFb sfx : String) (rand : Nat → String) : Option SPath :=
  randomFallbackAux taken dirs stemFb sfx rand 0 100

/-- The deconfliction candidate built by borrowing the last `n` source
segments (source lines 251-267): slug of the borrowed segments plus the
original stem, joined by `/`, with the original suffix, in the original
parent directory. -/
def borrowCandidate (initial : SPath) (segs : List String) (n : Nat) : SPath :=
  let parts := segs.drop (segs.length - n) ++ [pathStem initial.name]
  ⟨initial.dirs, slugify (String.intercalate "/" (parts.filter fun p => p ≠ "")) ++
    pathSuffix initial.name⟩

/-- Embeds the deconfliction `while` loop (source lines 243-318): while the
current candidate is taken, borrow one more parent segment; once segments
are exhausted, run the configured fallback.  `n` counts borrowed segments;
the fuel `segs.length + 1` covers every reachable iteration. -/
def deconflictAux (taken : SPath → Bool) (initial : SPath) (segs : List String)
    (useRandom : Bool) (rand : Nat → String) : Nat → Nat → SPath → Option SPath
  | 0, _, _ => none
  | fuel + 1, n, temp =>
    if taken temp = false then some temp
    else if n < segs.length then
      deconflictAux taken initial segs useRandom rand fuel (n + 1)
        (borrowCandidate initial segs (n + 1))
    else if useRandom then
      randomFallback taken initial.dirs (pathStem temp.name) (pathSuffix initial.name) rand
    else
      numericFallback taken initial.dirs (pathStem temp.name) (pathSuffix initial.name)

/-- The deconfliction engine: final unique path for a candidate, or `none`
when resolution fails. -/
def deconflictResolve (taken : SPath → Bool) (initial : SPath) (segs : List String)
    (useRandom : Bool) (rand : Nat → String) : Option SPath :=
  deconflictAux taken initial segs useRandom rand (segs.length + 1) 0 initial

/-- The ways a fetch can fail, keyed to the `except` clauses of
`download_file` / `download_file_aio`: `clientError` covers connection
errors and non-2xx statuses (`requests.exceptions.RequestException` /
`aiohttp.ClientError`), `timeoutErr` the timeout clause, `ioErr` the
`IOError` clause raised by local writes, `otherError` the generic clause. -/
inductive DLErr where
  | clientError
  | timeoutErr
  | ioErr
  | otherError
deriving DecidableEq, Repr

/-- The network/disk outcome of one fetch: `err = none` means the streamed
download completed; `wrotePartial` says whether the output file had been
created before an error struck; `contentType` is the response's
Content-Type header, if any. -/
structure FetchOutcome where
  err : Option DLErr
  wrotePartial : Bool
  contentType : Option String
deriving Repr

/-- All nonempty ancestor paths `mkdir(parents=True)` would create. -/
def ancestorsOf (l : List String) : List (List String) :=
  (List.range l.length).map fun i => l.take (i + 1)

/-- `save_path.parent.mkdir(parents=True, exist_ok=True)` succeeds exactly
when no ancestor exists as a regular file. -/
def mkdirOkB (d : Disk) (sp : SPath) : Bool :=
  (ancestorsOf sp.dirs).all fun pfx => !(elemB pfx d.files)

/-- Directory creation: every ancestor becomes a directory
(`exist_ok=True`). -/
def mkdirDisk (d : Disk) (sp : SPath) : Disk :=
  ⟨d.files, (ancestorsOf sp.dirs).foldl (fun ds pfx => insertIfAbsent pfx ds) d.dirs⟩

/-- Opening the save path with mode `"wb"`: the file now exists (its
previous content, if any, is gone). -/
def writeDisk (d : Disk) (sp : SPath) : Disk :=
  ⟨insertIfAbsent sp.toFs d.files, d.dirs⟩

/-- The cleanup in the error handlers (e.g. source lines 725-731):
`if save_path.exists() and not save_path.is_dir(): save_path.unlink()`. -/
def deleteIfFile (d : Disk) (sp : SPath) : Disk :=
  if d.existsB sp.toFs && !(d.isDirB sp.toFs) then ⟨d.files.erase sp.toFs, d.dirs⟩ else d

/-- The lowercased media type: `content_type.split(";")[0].strip().lower()`
(source line 695). -/
def mimeOf (ct : String) : String :=
  ⟨(pyStripWs (ct.data.takeWhile fun c => c ≠ ';')).map pyLower⟩

/-- Embeds the Content-Type rename decision (source lines 690-705): in
auto-suffix mode, with a usable media type whose guessed extension is
nonempty and differs from the current one, and with a save name that has no
extension, the rename target is `stem + guessed extension`. -/
def renameTarget (args : Args) (contentType : Option String)
    (guessExt : String → Option String) (sp : SPath) : Option SPath :=
  match args.add_suffix with
  | some _ => none
  | none =>
    match contentType with
    | none => none
    | some ct =>
      let stem := (splitext sp.name).1
      let ext := (splitext sp.name).2
      let mime := mimeOf ct
      if mime ≠ "" ∧ mime ≠ "application/octet-stream" then
        match guessExt mime with
        | none => none
        | some g =>
          if g ≠ "" ∧ g ≠ ext ∧
              ((stem = "index" ∧ ext = "") ∨ (ext = "" ∧ stem = sp.name)) then
            some ⟨sp.dirs, stem ++ g⟩
          else none
      else none

/-- Embeds `download_file` (source lines 655-742; `download_file_aio` is the
same algorithm): create parent directories, fetch, stream to disk, attempt
the Content-Type rename, and on errors run the per-clause cleanup.  Returns
the final path (`none` on failure) and the resulting filesystem. -/
def download_file (args : Args) (guessExt : String → Option String)
    (o : FetchOutcome) (sp : SPath) (d : Disk) : Option SPath × Disk :=
  if mkdirOkB d sp = false then (none, d)
  else
    let d1 := mkdirDisk d sp
    match o.err with
    | some e =>
      let d2 := if o.wrotePartial then writeDisk d1 sp else d1
      match e with
      | DLErr.ioErr => (none, d2)
      | _ => (none, deleteIfFile d2 sp)
    | none =>
      let d2 := writeDisk d1 sp
      match renameTarget args o.contentType guessExt sp with
      | none => (some sp, d2)
      | some tgt =>
        if d2.existsB tgt.toFs then (some sp, d2)
        else (some tgt, ⟨insertIfAbsent tgt.toFs (d2.files.erase sp.toFs), d2.dirs⟩)

/-- Status of one URL's `FetchResult`. -/
inductive Status where
  | success
  | skip
  | fail
deriving DecidableEq, Repr

/-- One URL's fetch result: status plus final path (present for success and
skip). -/
structure FetchResult where
  url : ParsedUrl
  status : Status
  path : Option SPath
deriving DecidableEq, Repr

/-- One URL task of a run: its URL, its network outcome, and the stream of
random deconfliction tokens (`uuid.uuid4().hex[:6]`) it would draw. -/
structure Task where
  url : ParsedUrl
  outcome : FetchOutcome
  rand : Nat → String

/-- The run state threaded through `main_sync`: the filesystem, the claim
set `occupied_final_save_paths_in_run`, the accumulated results in input
order, and the three counters. -/
structure RunSt where
  disk : Disk
  occupied : List SPath
  results : List FetchResult
  nSuccess : Nat
  nFail : Nat
  nSkip : Nat

/-- Everything after path resolution (source lines 327-347): claim the
path, reject directory targets and bad parents, then download. -/
def afterResolve (args : Args) (guessExt : String → Option String)
    (st : RunSt) (u : ParsedUrl) (o : FetchOutcome) (cur : SPath) : RunSt :=
  if st.disk.isDirB cur.toFs then
    {st with occupied := insertIfAbsent cur st.occupied,
             results := st.results ++ [⟨u, Status.fail, none⟩],
             nFail := st.nFail + 1}
  else if st.disk.existsB cur.dirs && !(st.disk.isDirB cur.dirs) then
    {st with occupied := insertIfAbsent cur st.occupied,
             results := st.results ++ [⟨u, Status.fail, none⟩],
             nFail := st.nFail + 1}
  else
    match download_file args guessExt o cur st.disk with
    | (some fin, d2) =>
      {st with disk := d2, occupied := insertIfAbsent cur st.occupied,
               results := st.results ++ [⟨u, Status.success, some fin⟩],
               nSuccess := st.nSuccess + 1}
    | (none, d2) =>
      {st with disk := d2, occupied := insertIfAbsent cur st.occupied,
               results := st.results ++ [⟨u, Status.fail, none⟩],
               nFail := st.nFail + 1}

/-- Embeds the per-URL body of the sequential loop in `main_sync` (source
lines 213-347); `process_url_async` performs the same steps, with the claim
set consultations serialized by the event loop. -/
def processUrl (args : Args) (guessExt : String → Option String)
    (st : RunSt) (t : Task) : RunSt :=
  match build_save_path t.url args with
  | (none, _) =>
    {st with results := st.results ++ [⟨t.url, Status.fail, none⟩], nFail := st.nFail + 1}
  | (some initial, segs) =>
    if args.skip_existing && st.disk.existsB initial.toFs then
      if st.disk.isDirB initial.toFs then
        {st with results := st.results ++ [⟨t.url, Status.fail, none⟩],
                 nFail := st.nFail + 1}
      else
        {st with results := st.results ++ [⟨t.url, Status.skip, some initial⟩],
                 nSkip := st.nSkip + 1}
    else
      if isFlattening args then
        match deconflictResolve
            (fun q : SPath => st.disk.existsB q.toFs || elemB q st.occupied)
            initial segs args.deconflict_random_suffix t.rand with
        | none =>
          {st with results := st.results ++ [⟨t.url, Status.fail, none⟩],
                   nFail := st.nFail + 1}
        | some cur => afterResolve args guessExt st t.url t.outcome cur
      else afterResolve args guessExt st t.url t.outcome initial

/-- The initial run state over a given filesystem. -/
def initSt (d : Disk) : RunSt :=
  ⟨d, [], [], 0, 0, 0⟩

/-- A whole sequential run (`main_sync`): fold the per-URL step over the
task list. -/
def runSync (args : Args) (guessExt : String → Option String)
    (d : Disk) (tasks : List Task) : RunSt :=
  tasks.foldl (processUrl args guessExt) (initSt d)

/-- The exit decision of `main` (source lines 1000-1003). -/
def mainExitCode (failCount : Nat) : Nat :=
  if 0 < failCount then 1 else 0

/-- The final paths of the success results, in result order. -/
def successPaths (rs : List FetchResult) : List SPath :=
  rs.filterMap fun r => if r.status = Status.success then r.path else none

/-- The run invariant behind path uniqueness: success paths are pairwise
distinct and each still denotes a file on disk. -/
def Inv (st : RunSt) : Prop :=
  (successPaths st.results).Pairwise (fun a b => a ≠ b) ∧
    ∀ p ∈ successPaths st.results, p.toFs ∈ st.disk.files

/-- Default configuration: hierarchical layout, auto-detect suffix, no
skipping, numeric fallback, sequential semantics. -/
def autoArgs : Args :=
  ⟨none, none, false, false, false, false, false, none⟩

/-- Flatten-all configuration with numeric fallback. -/
def flatArgs : Args :=
  ⟨none, none, false, false, false, true, false, none⟩

/-- A fetch that succeeds with no Content-Type header. -/
def okFetch : FetchOutcome :=
  ⟨none, false, none⟩

/-- An extension-guessing oracle that knows nothing. -/
def noGuess : String → Option String :=
  fun _ => none

/-- An extension-guessing oracle mapping text/html to `.html`
(`mimetypes.guess_extension`). -/
def htmlGuess : String → Option String :=
  fun m => if m = "text/html" then some ".html" else none

/-- A fixed random-token stream for tasks whose runs never reach the random
fallback. -/
def hexRand : Nat → String :=
  fun _ => "abcdef"

/-- A task with the fixed random stream. -/
def mkTask (u : ParsedUrl) (o : FetchOutcome) : Task :=
  ⟨u, o, hexRand⟩

/-- The empty base directory. -/
def emptyDisk : Disk :=
  ⟨[], []⟩

theorem elemB_iff {α : Type} [DecidableEq α] {a : α} {l : List α} :
    elemB a l = true ↔ a ∈ l := by
  simp [elemB]

theorem mem_insertIfAbsent {α : Type} [DecidableEq α] {a b : α} {l : List α} :
    a ∈ insertIfAbsent b l ↔ a = b ∨ a ∈ l := by
  unfold insertIfAbsent
  split
  · next h =>
    constructor
    · exact fun ha => Or.inr ha
    · rintro (rfl | ha)
      · exact h
      · exact ha
  · simp [List.mem_append, or_comm]

theorem SPath.toFs_inj {p q : SPath} (h : p.toFs = q.toFs) : p = q := by
  cases p with
  | mk pd pn =>
    cases q with
    | mk qd qn =>
      simp only [SPath.toFs] at h
      obtain ⟨h1, h2⟩ := List.append_inj' h rfl
      simp only [List.cons.injEq] at h2
      simp [h1, h2.1]

theorem successPaths_append {rs₁ rs₂ : List FetchResult} :
    successPaths (rs₁ ++ rs₂) = successPaths rs₁ ++ successPaths rs₂ := by
  simp [successPaths]

theorem successPaths_fail {rs : List FetchResult} {u : ParsedUrl} :
    successPaths (rs ++ [⟨u, Status.fail, none⟩]) = successPaths rs := by
  simp [successPaths]

theorem successPaths_skip {rs : List FetchResult} {u : ParsedUrl} {p : Option SPath} :
    successPaths (rs ++ [⟨u, Status.skip, p⟩]) = successPaths rs := by
  simp [successPaths]

theorem successPaths_success {rs : List FetchResult} {u : ParsedUrl} {p : SPath} :
    successPaths (rs ++ [⟨u, Status.success, some p⟩]) = successPaths rs ++ [p] := by
  simp [successPaths]

theorem numericFallbackAux_not_taken {taken : SPath → Bool} {dirs : List String}
    {stemFb sfx : String} :
    ∀ fuel counter p, numericFallbackAux taken dirs stemFb sfx counter fuel = some p →
      taken p = false := by
  intro fuel
  induction fuel with
  | zero => intro counter p h; simp [numericFallbackAux] at h
  | succ m ih =>
    intro counter p h
    rw [numericFallbackAux] at h
    split at h
    · exact ih (counter + 1) p h
    · next hn =>
      cases h
      simpa using hn

theorem randomFallbackAux_not_taken {taken : SPath → Bool} {dirs : List String}
    {stemFb sfx : String} {rand : Nat → String} :
    ∀ fuel i p, randomFallbackAux taken dirs stemFb sfx rand i fuel = some p →
      taken p = false := by
  intro fuel
  induction fuel with
  | zero => intro i p h; simp [randomFallbackAux] at h
  | succ m ih =>
    intro i p h
    rw [randomFallbackAux] at h
    split at h
    · exact ih (i + 1) p h
    · next hn =>
      cases h
      simpa using hn

theorem deconflictAux_not_taken {taken : SPath → Bool} {initial : SPath}
    {segs : List String} {ur : Bool} {rand : Nat → String} :
    ∀ fuel n temp p, deconflictAux taken initial segs ur rand fuel n temp = some p →
      taken p = false := by
  intro fuel
  induction fuel with
  | zero => intro n temp p h; simp [deconflictAux] at h
  | succ m ih =>
    intro n temp p h
    rw [deconflictAux] at h
    split at h
    · next hfree => cases h; exact hfree
    · split at h
      · exact ih (n + 1) _ p h
      · split at h
        · exact randomFallbackAux_not_taken 100 0 p h
        · exact numericFallbackAux_not_taken 100 1 p h

theorem deconflictResolve_not_taken {taken : SPath → Bool} {initial : SPath}
    {segs : List String} {ur : Bool} {rand : Nat → String} {p : SPath}
    (h : deconflictResolve taken initial segs ur rand = some p) : taken p = false :=
  deconflictAux_not_taken (segs.length + 1) 0 initial p h

theorem mkdirDisk_files {d : Disk} {sp : SPath} : (mkdirDisk d sp).files = d.files :=
  rfl

theorem mem_deleteIfFile {dd : Disk} {sp : SPath} {p : FsPath}
    (hne : p ≠ sp.toFs) (hp : p ∈ dd.files) : p ∈ (deleteIfFile dd sp).files := by
  unfold deleteIfFile
  split
  · exact (List.mem_erase_of_ne hne).mpr hp
  · exact hp

theorem download_file_preserves (args : Args) (gx : String → Option String)
    (o : FetchOutcome) (sp : SPath) (d : Disk) {p : FsPath}
    (hne : p ≠ sp.toFs) (hp : p ∈ d.files) :
    p ∈ (download_file args gx o sp d).2.files := by
  rcases o with ⟨err, wp, ct⟩
  by_cases hmk : mkdirOkB d sp = false
  · simpa [download_file, hmk] using hp
  · have hpw : p ∈ (writeDisk (mkdirDisk d sp) sp).files :=
      mem_insertIfAbsent.mpr (Or.inr hp)
    have hpm : p ∈ (mkdirDisk d sp).files := hp
    cases err with
    | some e =>
      cases wp with
      | true =>
        cases e with
        | ioErr => simpa [download_file, hmk] using hpw
        | clientError => simpa [download_file, hmk] using mem_deleteIfFile hne hpw
        | timeoutErr => simpa [download_file, hmk] using mem_deleteIfFile hne hpw
        | otherError => simpa [download_file, hmk] using mem_deleteIfFile hne hpw
      | false =>
        cases e with
        | ioErr => simpa [download_file, hmk] using hpm
        | clientError => simpa [download_file, hmk] using mem_deleteIfFile hne hpm
        | timeoutErr => simpa [download_file, hmk] using mem_deleteIfFile hne hpm
        | otherError => simpa [download_file, hmk] using mem_deleteIfFile hne hpm
    | none =>
      rcases hrn : renameTarget args ct gx sp with _ | tgt
      · simpa [download_file, hmk, hrn] using hpw
      · cases hex : (writeDisk (mkdirDisk d sp) sp).existsB tgt.toFs with
        | true => simpa [download_file, hmk, hrn, hex] using hpw
        | false =>
          have hin : p ∈ insertIfAbsent tgt.toFs
              ((writeDisk (mkdirDisk d sp) sp).files.erase sp.toFs) :=
            mem_insertIfAbsent.mpr (Or.inr ((List.mem_erase_of_ne hne).mpr hpw))
          simpa [download_file, hmk, hrn, hex] using hin

theorem download_file_fresh {args : Args} {gx : String → Option String}
    {o : FetchOutcome} {sp : SPath} {d : Disk} {q : SPath}
    (hsp : sp.toFs ∉ d.files)
    (h : (download_file args gx o sp d).1 = some q) :
    q.toFs ∉ d.files ∧ q.toFs ∈ (download_file args gx o sp d).2.files := by
  rcases o with ⟨err, wp, ct⟩
  by_cases hmk : mkdirOkB d sp = false
  · simp [download_file, hmk] at h
  · cases err with
    | some e =>
      cases e <;> simp [download_file, hmk] at h
    | none =>
      rcases hrn : renameTarget args ct gx sp with _ | tgt
      · simp [download_file, hmk, hrn] at h ⊢
        cases h
        exact ⟨hsp, mem_insertIfAbsent.mpr (Or.inl rfl)⟩
      · cases hex : (writeDisk (mkdirDisk d sp) sp).existsB tgt.toFs with
        | true =>
          simp [download_file, hmk, hrn, hex] at h ⊢
          cases h
          exact ⟨hsp, mem_insertIfAbsent.mpr (Or.inl rfl)⟩
        | false =>
          simp [download_file, hmk, hrn, hex] at h ⊢
          cases h
          refine ⟨?_, mem_insertIfAbsent.mpr (Or.inl rfl)⟩
          intro hmem
          have hx : (writeDisk (mkdirDisk d sp) sp).existsB q.toFs = true := by
            simp only [Disk.existsB, Bool.or_eq_true, elemB_iff]
            exact Or.inl (mem_insertIfAbsent.mpr (Or.inr hmem))
          simp [hx] at hex

theorem Inv.preserve {st st' : RunSt} (h : Inv st) (rs : List FetchResult)
    (hr : st'.results = st.results ++ rs) (hs : successPaths rs = [])
    (hd : st'.disk = st.disk) : Inv st' := by
  constructor
  · rw [hr, successPaths_append, hs, List.append_nil]
    exact h.1
  · intro p hp
    rw [hr, successPaths_append, hs, List.append_nil] at hp
    rw [hd]
    exact h.2 p hp

theorem afterResolve_inv {args : Args} {gx : String → Option String} {st : RunSt}
    {u : ParsedUrl} {o : FetchOutcome} {cur : SPath}
    (hinv : Inv st) (hfresh : st.disk.existsB cur.toFs = false) :
    Inv (afterResolve args gx st u o cur) := by
  have hcurF : cur.toFs ∉ st.disk.files := by
    intro hm
    have h1 : elemB cur.toFs st.disk.files = true := elemB_iff.mpr hm
    simp only [Disk.existsB, Bool.or_eq_false_iff] at hfresh
    rw [hfresh.1] at h1
    exact Bool.false_ne_true h1
  unfold afterResolve
  split
  · exact Inv.preserve hinv [⟨u, Status.fail, none⟩] rfl (by simp [successPaths]) rfl
  · split
    · exact Inv.preserve hinv [⟨u, Status.fail, none⟩] rfl (by simp [successPaths]) rfl
    · split
      · next fin d2 hdl =>
        have hfin1 : (download_file args gx o cur st.disk).1 = some fin := by rw [hdl]
        have hfr := download_file_fresh hcurF hfin1
        rw [hdl] at hfr
        constructor
        · show (successPaths (st.results ++ [⟨u, Status.success, some fin⟩])).Pairwise _
          rw [successPaths_success, List.pairwise_append]
          refine ⟨hinv.1, by simp, ?_⟩
          intro a ha b hb
          simp only [List.mem_singleton] at hb
          subst hb
          intro hab
          subst hab
          exact hfr.1 (hinv.2 a ha)
        · intro p hp
          have hp' : p ∈ successPaths (st.results ++ [⟨u, Status.success, some fin⟩]) := hp
          rw [successPaths_success] at hp'
          show p.toFs ∈ d2.files
          rcases List.mem_append.mp hp' with hold | hnew
          · have hne : p.toFs ≠ cur.toFs := by
              intro he
              exact hcurF (he ▸ hinv.2 p hold)
            have := download_file_preserves args gx o cur st.disk
              hne (hinv.2 p hold)
            rwa [hdl] at this
          · simp only [List.mem_singleton] at hnew
            subst hnew
            exact hfr.2
      · next d2 hdl =>
        constructor
        · show (successPaths (st.results ++ [⟨u, Status.fail, none⟩])).Pairwise _
          rw [successPaths_fail]
          exact hinv.1
        · intro p hp
          have hp' : p ∈ successPaths (st.results ++ [⟨u, Status.fail, none⟩]) := hp
          rw [successPaths_fail] at hp'
          show p.toFs ∈ d2.files
          have hne : p.toFs ≠ cur.toFs := by
            intro he
            exact hcurF (he ▸ hinv.2 p hp')
          have := download_file_preserves args gx o cur st.disk
            hne (hinv.2 p hp')
          rwa [hdl] at this

theorem processUrl_inv {args : Args} {gx : String → Option String} {st : RunSt}
    {t : Task} (hf : isFlattening args = true) (hinv : Inv st) :
    Inv (processUrl args gx st t) := by
  unfold processUrl
  split
  · exact Inv.preserve hinv [⟨t.url, Status.fail, none⟩] rfl (by simp [successPaths]) rfl
  · next initial segs hb =>
    split
    · split
      · exact Inv.preserve hinv [⟨t.url, Status.fail, none⟩] rfl (by simp [successPaths]) rfl
      · exact Inv.preserve hinv [⟨t.url, Status.skip, some initial⟩] rfl
          (by simp [successPaths]) rfl
    · split
      · exact Inv.preserve hinv [⟨t.url, Status.fail, none⟩] rfl (by simp [successPaths]) rfl
      · next cur hdc =>
        have htaken := deconflictResolve_not_taken hdc
        have hfresh : st.disk.existsB cur.toFs = false := by
          simp only [Bool.or_eq_false_iff] at htaken
          exact htaken.1
        exact afterResolve_inv hinv hfresh

theorem foldl_inv {args : Args} {gx : String → Option String}
    (hf : isFlattening args = true) :
    ∀ (tasks : List Task) (st : RunSt), Inv st →
      Inv (tasks.foldl (processUrl args gx) st) := by
  intro tasks
  induction tasks with
  | nil => intro st h; exact h
  | cons t rest ih =>
    intro st h
    exact ih _ (processUrl_inv hf h)

theorem initSt_inv {d : Disk} : Inv (initSt d) := by
  constructor
  · simp [initSt, successPaths]
  · simp [initSt, successPaths]

theorem str_eq_empty_iff {s : String} : s = "" ↔ s.data = [] := by
  constructor
  · intro h
    rw [h]
  · intro h
    cases s with
    | mk l =>
      simp only at h
      rw [h]

theorem SPath.toFs_ne_nil {p : SPath} : p.toFs ≠ [] := by
  simp [SPath.toFs]

theorem append_ne_empty_of_right {a b : String} (h : b ≠ "") : a ++ b ≠ "" := by
  intro hc
  apply h
  rw [str_eq_empty_iff, String.data_append, List.append_eq_nil] at hc
  rw [str_eq_empty_iff]
  exact hc.2

theorem nodup_insertIfAbsent {α : Type} [DecidableEq α] {a : α} {l : List α}
    (h : l.Nodup) : (insertIfAbsent a l).Nodup := by
  unfold insertIfAbsent
  split
  · exact h
  · next hna => simpa [List.nodup_append] using ⟨h, hna⟩

theorem mem_foldl_insertIfAbsent {α : Type} [DecidableEq α] {a : α} :
    ∀ (xs : List α) (l : List α),
      a ∈ xs.foldl (fun acc x => insertIfAbsent x acc) l ↔ a ∈ l ∨ a ∈ xs := by
  intro xs
  induction xs with
  | nil => simp
  | cons x rest ih =>
    intro l
    rw [List.foldl_cons, ih, mem_insertIfAbsent]
    constructor
    · rintro ((rfl | h) | h)
      · exact Or.inr (List.mem_cons_self _ _)
      · exact Or.inl h
      · exact Or.inr (List.mem_cons_of_mem _ h)
    · rintro (h | h)
      · exact Or.inl (Or.inr h)
      · rcases List.mem_cons.mp h with rfl | h
        · exact Or.inl (Or.inl rfl)
        · exact Or.inr h

theorem toFs_not_mem_mkdir_dirs {d : Disk} {sp : SPath} (h : sp.toFs ∉ d.dirs) :
    sp.toFs ∉ (mkdirDisk d sp).dirs := by
  simp only [mkdirDisk]
  rw [mem_foldl_insertIfAbsent]
  rintro (hm | hm)
  · exact h hm
  · simp only [ancestorsOf, List.mem_map, List.mem_range] at hm
    obtain ⟨i, hi, he⟩ := hm
    have hlen := congrArg List.length he
    simp only [List.length_take, SPath.toFs, List.length_append,
      List.length_singleton] at hlen
    omega

theorem isDirB_mkdir_toFs {d : Disk} {sp : SPath} (h : sp.toFs ∉ d.dirs) :
    (mkdirDisk d sp).isDirB sp.toFs = false := by
  simp only [Disk.isDirB, Bool.or_eq_false_iff]
  constructor
  · simp [SPath.toFs_ne_nil]
  · simp only [elemB, decide_eq_false_iff_not]
    exact toFs_not_mem_mkdir_dirs h

theorem lastDotIdx_lt {l : List Char} {i : Nat} (h : lastDotIdx l = some i) :
    i < l.length := by
  unfold lastDotIdx at h
  have h' : i ∈ (((l.enum).filter fun p => p.2 = '.').map fun p => p.1).getLast? :=
    Option.mem_def.mpr h
  obtain ⟨hne, heq⟩ := List.mem_getLast?_eq_getLast h'
  have hmem : i ∈ ((l.enum).filter fun p => p.2 = '.').map fun p => p.1 := by
    rw [heq]
    exact List.getLast_mem hne
  simp only [List.mem_map, List.mem_filter] at hmem
  obtain ⟨⟨j, c⟩, ⟨hj, _⟩, he⟩ := hmem
  cases he
  have hg := List.mem_enum_iff_getElem?.mp hj
  simp only at hg
  exact (List.getElem?_eq_some.mp hg).1

theorem splitext_stem_of_ext_empty {n : String} (h : (splitext n).2 = "") :
    (splitext n).1 = n := by
  cases hidx : lastDotIdx n.data with
  | none => simp [splitext, hidx]
  | some i =>
    simp only [splitext, hidx] at h ⊢
    split at h
    · exfalso
      have hlt := lastDotIdx_lt hidx
      have h0 : n.data.drop i = [] := str_eq_empty_iff.mp h
      have hlen := congrArg List.length h0
      simp only [List.length_drop, List.length_nil] at hlen
      omega
    · next hany =>
      rw [if_neg hany]

theorem numericFallbackAux_none_taken {taken : SPath → Bool} {dirs : List String}
    {stemFb sfx : String} :
    ∀ fuel counter, numericFallbackAux taken dirs stemFb sfx counter fuel = none →
      ∀ i, counter ≤ i → i < counter + fuel →
        taken ⟨dirs, stemFb ++ "_" ++ toString i ++ sfx⟩ = true := by
  intro fuel
  induction fuel with
  | zero =>
    intro counter h i h1 h2
    omega
  | succ m ih =>
    intro counter h i h1 h2
    rw [numericFallbackAux] at h
    split at h
    · next ht =>
      by_cases hic : i = counter
      · subst hic
        exact ht
      · exact ih (counter + 1) h i (by omega) (by omega)
    · exact Option.noConfusion h

/-- C9: a run signals overall failure to its caller (exit code 1) exactly
when its failure count is non-zero (source lines 1000-1003); a run with one
failed URL and zero successes and skips exits 1, and a run whose only URL
succeeds exits 0. -/
theorem C9_exit_code (args : Args) (gx : String → Option String) (d : Disk)
    (tasks : List Task) :
    (mainExitCode (runSync args gx d tasks).nFail ≠ 0 ↔
      (runSync args gx d tasks).nFail ≠ 0) ∧
    mainExitCode (runSync autoArgs noGuess emptyDisk
      [mkTask ⟨"", "a.com", "/f", ""⟩ okFetch]).nFail = 1 ∧
    (runSync autoArgs noGuess emptyDisk
      [mkTask ⟨"", "a.com", "/f", ""⟩ okFetch]).nSuccess = 0 ∧
    (runSync autoArgs noGuess emptyDisk
      [mkTask ⟨"", "a.com", "/f", ""⟩ okFetch]).nSkip = 0 ∧
    (runSync autoArgs noGuess emptyDisk
      [mkTask ⟨"", "a.com", "/f", ""⟩ okFetch]).nFail = 1 ∧
    mainExitCode (runSync autoArgs noGuess emptyDisk
      [mkTask ⟨"https", "a.com", "/f", ""⟩ okFetch]).nFail = 0 := by
  refine ⟨?_, by decide, by decide, by decide, by decide, by decide⟩
  by_cases h : (runSync args gx d tasks).nFail = 0 <;> simp [mainExitCode, h]

/-- C3: under flatten-all with numeric fallback and no source segments
remaining, three URLs whose candidate filename is `f.txt`, resolved in
sequence against an empty directory, receive exactly `f.txt`, `f_1.txt`,
`f_2.txt` in that order; the sequential counter starts at 1 (the first free
`stem_1` candidate is taken immediately); and the numeric fallback returns
`none` only once all 100 candidates `stem_1` .. `stem_100` are taken. -/
theorem C3_numeric_sequence :
    (successPaths (runSync flatArgs noGuess emptyDisk
        [mkTask ⟨"https", "a.com", "/f.txt", ""⟩ okFetch,
         mkTask ⟨"https", "b.com", "/f.txt", ""⟩ okFetch,
         mkTask ⟨"https", "c.com", "/f.txt", ""⟩ okFetch]).results =
      [⟨[], "f.txt"⟩, ⟨[], "f_1.txt"⟩, ⟨[], "f_2.txt"⟩]) ∧
    (∀ (taken : SPath → Bool) (dirs : List String) (stemFb sfx : String),
      taken ⟨dirs, stemFb ++ "_" ++ toString 1 ++ sfx⟩ = false →
        numericFallback taken dirs stemFb sfx =
          some ⟨dirs, stemFb ++ "_" ++ toString 1 ++ sfx⟩) ∧
    (∀ (taken : SPath → Bool) (dirs : List String) (stemFb sfx : String),
      numericFallback taken dirs stemFb sfx = none →
        ∀ i, 1 ≤ i → i ≤ 100 →
          taken ⟨dirs, stemFb ++ "_" ++ toString i ++ sfx⟩ = true) := by
  refine ⟨by decide, ?_, ?_⟩
  · intro taken dirs stemFb sfx h
    rw [numericFallback, numericFallbackAux]
    simp [h]
  · intro taken dirs stemFb sfx h i h1 h2
    exact numericFallbackAux_none_taken 100 1 h i h1 (by omega)

/-- C3 witness: a concrete fallback where only `f.txt` is taken resolves to
`f_1.txt`. -/
theorem C3_witness :
    numericFallback (fun sp => decide (sp.name = "f.txt")) [] "f" ".txt" =
      some ⟨[], "f_1.txt"⟩ := by
  have h := C3_numeric_sequence.2.1 (fun sp => decide (sp.name = "f.txt"))
    [] "f" ".txt" (by decide)
  simpa using h

/-- C1 counterexample: the claimed run-wide uniqueness of success/skip
paths fails as stated.  In the default hierarchical mode with skip-existing
disabled, the same URL appearing twice in one run is fetched twice into the
same path and both results are successes carrying that one path. -/
theorem C1_counterexample :
    successPaths (runSync autoArgs noGuess emptyDisk
        [mkTask ⟨"https", "a.com", "/f.txt", ""⟩ okFetch,
         mkTask ⟨"https", "a.com", "/f.txt", ""⟩ okFetch]).results =
      [⟨["a.com"], "f.txt"⟩, ⟨["a.com"], "f.txt"⟩] ∧
    ¬ (successPaths (runSync autoArgs noGuess emptyDisk
        [mkTask ⟨"https", "a.com", "/f.txt", ""⟩ okFetch,
         mkTask ⟨"https", "a.com", "/f.txt", ""⟩ okFetch]).results).Pairwise
      (fun a b => a ≠ b) := by
  have h1 : successPaths (runSync autoArgs noGuess emptyDisk
      [mkTask ⟨"https", "a.com", "/f.txt", ""⟩ okFetch,
       mkTask ⟨"https", "a.com", "/f.txt", ""⟩ okFetch]).results =
      [⟨["a.com"], "f.txt"⟩, ⟨["a.com"], "f.txt"⟩] := by decide
  refine ⟨h1, ?_⟩
  rw [h1]
  intro h
  exact (List.pairwise_cons.mp h).1 _ (List.mem_singleton.mpr rfl) rfl

/-- C1 amended: in a sequential run with an active flattening mode, any two
success results carry distinct final paths (regardless of the skip-existing
setting and the fallback style); skipped results are excluded, since a skip
reuses a pre-existing path that another URL may also produce or claim. -/
theorem C1_success_paths_distinct (args : Args) (gx : String → Option String)
    (d : Disk) (tasks : List Task) (hf : isFlattening args = true) :
    (successPaths (runSync args gx d tasks).results).Pairwise
      (fun a b => a ≠ b) :=
  (foldl_inv hf tasks (initSt d) initSt_inv).1

/-- C1 witness: a flatten-all run of two same-named URLs has pairwise
distinct success paths. -/
theorem C1_witness :
    (successPaths (runSync flatArgs noGuess emptyDisk
        [mkTask ⟨"https", "a.com", "/f.txt", ""⟩ okFetch,
         mkTask ⟨"https", "b.com", "/f.txt", ""⟩ okFetch]).results).Pairwise
      (fun a b => a ≠ b) :=
  C1_success_paths_distinct flatArgs noGuess emptyDisk
    [mkTask ⟨"https", "a.com", "/f.txt", ""⟩ okFetch,
     mkTask ⟨"https", "b.com", "/f.txt", ""⟩ okFetch] (by decide)

/-- C4: with skip-existing enabled, a URL whose pre-deconfliction candidate
exists on disk as a regular file is recorded skipped with exactly that
candidate path, and the filesystem and claim set are untouched — neither
the deconfliction loop nor the fetch runs; a candidate that exists as a
directory is recorded failed with no path. -/
theorem C4_skip_existing (args : Args) (gx : String → Option String)
    (st : RunSt) (t : Task) (p : SPath) (segs : List String)
    (hskip : args.skip_existing = true)
    (hb : build_save_path t.url args = (some p, segs)) :
    (p.toFs ∈ st.disk.files → p.toFs ∉ st.disk.dirs →
      processUrl args gx st t =
        {st with results := st.results ++ [⟨t.url, Status.skip, some p⟩],
                 nSkip := st.nSkip + 1}) ∧
    (p.toFs ∈ st.disk.dirs →
      processUrl args gx st t =
        {st with results := st.results ++ [⟨t.url, Status.fail, none⟩],
                 nFail := st.nFail + 1}) := by
  constructor
  · intro hmem hnd
    have hex : st.disk.existsB p.toFs = true := by
      simp [Disk.existsB, elemB_iff, hmem]
    have hdir : st.disk.isDirB p.toFs = false := by
      simp [Disk.isDirB, elemB, hnd, SPath.toFs_ne_nil]
    simp [processUrl, hb, hskip, hex, hdir]
  · intro hmem
    have hex : st.disk.existsB p.toFs = true := by
      simp [Disk.existsB, elemB_iff, hmem]
    have hdir : st.disk.isDirB p.toFs = true := by
      simp [Disk.isDirB, elemB_iff, hmem]
    simp [processUrl, hb, hskip, hex, hdir]

/-- C4 witness: re-running on `https://a.com/f.txt` with `a.com/f.txt`
pre-created yields a skip result referencing exactly that path, with no
other state change. -/
theorem C4_witness :
    processUrl {autoArgs with skip_existing := true} noGuess
        (initSt ⟨[["a.com", "f.txt"]], [["a.com"]]⟩)
        (mkTask ⟨"https", "a.com", "/f.txt", ""⟩ okFetch) =
      {initSt ⟨[["a.com", "f.txt"]], [["a.com"]]⟩ with
        results := (initSt ⟨[["a.com", "f.txt"]], [["a.com"]]⟩).results ++
          [⟨⟨"https", "a.com", "/f.txt", ""⟩, Status.skip, some ⟨["a.com"], "f.txt"⟩⟩],
        nSkip := (initSt ⟨[["a.com", "f.txt"]], [["a.com"]]⟩).nSkip + 1} :=
  (C4_skip_existing {autoArgs with skip_existing := true} noGuess
    (initSt ⟨[["a.com", "f.txt"]], [["a.com"]]⟩)
    (mkTask ⟨"https", "a.com", "/f.txt", ""⟩ okFetch)
    ⟨["a.com"], "f.txt"⟩ [] rfl (by decide)).1 (by decide) (by decide)

/-- C7: when a configured strip-prefix's scheme and host match, a URL path
that extends the prefix path loses exactly that leading portion; when the
two paths are equal up to one trailing slash — the prefix one `/` longer,
or the URL one `/` longer — the structural remainder is empty; and the
prefix `https://a.com/docs/` (with or without its trailing slash) applied
to `https://a.com/docs/api/v1` yields the decoded structural segments
`["api", "v1"]`. -/
theorem C7_prefix_stripping :
    (∀ pp t : String, stripRemainder (pp ++ t) pp = some t) ∧
    (∀ up : String, stripRemainder up (up ++ "/") = some "") ∧
    (∀ pp : String,
      (stripRemainder (pp ++ "/") pp).map decodedSegmentsFrom = some []) ∧
    decodedSegments ⟨"https", "a.com", "/docs/api/v1", ""⟩
      ⟨some ⟨"https", "a.com", "/docs/", ""⟩,
        none, false, false, false, false, false, none⟩ = ["api", "v1"] ∧
    decodedSegments ⟨"https", "a.com", "/docs/api/v1", ""⟩
      ⟨some ⟨"https", "a.com", "/docs", ""⟩,
        none, false, false, false, false, false, none⟩ = ["api", "v1"] := by
  have hdropPart : ∀ pp t : String, stripRemainder (pp ++ t) pp = some t := by
    intro pp t
    have hsw : pyStartswith (pp ++ t) pp = true := by
      simp only [pyStartswith, String.data_append]
      rw [List.isPrefixOf_iff_prefix]
      exact List.prefix_append pp.data t.data
    unfold stripRemainder
    rw [if_pos hsw]
    congr 1
    unfold pyDrop pyLen
    rw [String.data_append, List.drop_left]
  refine ⟨hdropPart, ?_, ?_, by decide, by decide⟩
  · intro up
    have hsw : ¬ (pyStartswith up (up ++ "/") = true) := by
      simp only [pyStartswith, String.data_append]
      rw [List.isPrefixOf_iff_prefix]
      intro hpre
      have := hpre.length_le
      simp at this
    unfold stripRemainder
    rw [if_neg hsw, if_pos]
    refine ⟨?_, ?_, ?_⟩
    · unfold pyLen
      simp [String.data_append]
    · simp only [pyEndswith, String.data_append]
      rw [List.isSuffixOf_iff_suffix]
      exact List.suffix_append up.data _
    · simp only [pyStartswith, String.data_append]
      rw [List.isPrefixOf_iff_prefix]
      exact List.prefix_append up.data _
  · intro pp
    rw [hdropPart pp "/"]
    rfl

theorem toNat_ofNat_lt {n : Nat} (h : n < 0xD800) : (Char.ofNat n).toNat = n := by
  have hv : n.isValidChar := Or.inl h
  simp [Char.ofNat, hv, Char.ofNatAux, Char.toNat, UInt32.toNat, BitVec.toNat_ofNatLt]

theorem latin1WordChar_ascii {c : Char} (h : c.toNat < 128) :
    latin1WordChar c = false := by
  simp only [latin1WordChar, Bool.or_eq_false_iff, decide_eq_false_iff_not]
  omega

theorem pyLower_toNat_lt {c : Char} (h : c.toNat < 128) :
    (pyLower c).toNat < 128 := by
  unfold pyLower
  split
  · next h1 =>
    rw [toNat_ofNat_lt (by omega)]
    omega
  · split
    · next h2 =>
      exfalso
      omega
    · exact h

theorem ne_empty_of_hasDot {p : String} (h : hasDot p = true) : p ≠ "" := by
  intro hc
  rw [str_eq_empty_iff] at hc
  rw [hasDot, hc] at h
  simp at h

theorem computeFilename_forced {s : String} (hne : s ≠ "") (dl : Bool) (pr : String) :
    computeFilename (some s) dl pr =
      (if dl || decide (pr = "") then "index" ++ s
       else if hasDot pr = false then pr ++ s
       else pr) := by
  have hidx : ("index" ++ s : String) ≠ "" := append_ne_empty_of_right hne
  unfold computeFilename
  dsimp only
  rw [if_neg hne]
  cases dl with
  | true => simp [hidx]
  | false =>
    by_cases hpr : pr = ""
    · simp [hpr, hidx]
    · by_cases hdot : hasDot pr = false
      · simp [hpr, hdot, append_ne_empty_of_right hne]
      · simp [hpr, hdot]

theorem build_some {url : ParsedUrl} {args : Args}
    (hg : ¬(url.scheme = "" ∨ url.netloc = ""))
    (hf1 : buildFilename url args ≠ "") :
    build_save_path url args =
      (some ⟨dirComponentsOf url args (pathAndMatched url args).2 (sourceSegsOf url args),
        buildFilename url args⟩, sourceSegsOf url args) := by
  unfold build_save_path
  rw [if_neg hg, if_neg hf1, List.getLast?_concat]
  dsimp only
  rw [if_neg hf1]

theorem build_name {url : ParsedUrl} {args : Args} {sp : SPath} {segs : List String}
    (hb : build_save_path url args = (some sp, segs)) :
    sp.name = buildFilename url args := by
  unfold build_save_path at hb
  split at hb
  · simp at hb
  · by_cases hf1 : buildFilename url args = ""
    · rw [if_pos hf1] at hb
      simp at hb
    · rw [if_neg hf1, List.getLast?_concat] at hb
      dsimp only at hb
      rw [if_neg hf1] at hb
      simp only [Prod.mk.injEq, Option.some.injEq] at hb
      rw [← hb.1]

/-- C5 counterexample: the slugify contract fails as stated for non-ASCII
input.  Python's regex `\w` matches the Latin-1 letter `é`, so
`slugify "xéy"` keeps the character, while the spec's character class
`[A-Za-z0-9_\s-]` would turn it into a hyphen. -/
theorem C5_counterexample :
    slugify "xéy" = "xéy" ∧ slugifySpec "xéy" = "x-y" ∧
      slugify "xéy" ≠ slugifySpec "xéy" := by
  refine ⟨by decide, by decide, by decide⟩

/-- C5 amended: for every ASCII input string, `slugify` behaves exactly as
the spec describes (lowercase; characters outside `[A-Za-z0-9_\s-]` become
hyphens; runs of whitespace/hyphens collapse; ends trimmed) — non-ASCII
word characters are kept rather than hyphenated; and whenever query
preservation is on and the URL has a query, the built filename is
`{stem}_query_{slug}{ext}` around the slug of the query string. -/
theorem C5_slugify_and_query (s : String) (hascii : ∀ c ∈ s.data, c.toNat < 128) :
    slugify s = slugifySpec s ∧
    (∀ (url : ParsedUrl) (args : Args) (sp : SPath) (segs : List String),
      args.preserve_query_params = true → url.query ≠ "" →
      build_save_path url args = (some sp, segs) →
      sp.name = (splitext (computeFilename args.add_suffix (isDirLikeOf url args)
            (prospectiveOf url args))).1 ++ "_query_" ++ slugify url.query ++
          (splitext (computeFilename args.add_suffix (isDirLikeOf url args)
            (prospectiveOf url args))).2) := by
  constructor
  · by_cases hs : s = ""
    · subst hs
      decide
    · unfold slugify slugifySpec
      rw [if_neg hs]
      have hmap : (s.data.map pyLower).map
            (fun c => if pyWordChar c || pySpaceChar c || decide (c = '-') then c else '-') =
          (s.data.map pyLower).map
            (fun c => if asciiWordChar c || pySpaceChar c || decide (c = '-') then c else '-') := by
        apply List.map_congr_left
        intro c hc
        obtain ⟨c0, hc0, rfl⟩ := List.mem_map.mp hc
        have hlt : (pyLower c0).toNat < 128 := pyLower_toNat_lt (hascii c0 hc0)
        simp only [pyWordChar, latin1WordChar_ascii hlt, Bool.or_false]
      simp only [hmap]
  · intro url args sp segs hq hqne hb
    have hn := build_name hb
    rw [hn]
    unfold buildFilename
    rw [if_pos (And.intro hq hqne)]
    rfl

/-- C5 witness: the amended slugify contract at the concrete ASCII query
string of `?x=1&y=2`. -/
theorem C5_witness :
    slugify "x=1&y=2" = slugifySpec "x=1&y=2" :=
  (C5_slugify_and_query "x=1&y=2" (by decide)).1

/-- C6: under the forced-literal-suffix policy with suffix S starting with
a dot, a directory-like or empty tentative filename yields `index` + S, a
tentative filename with no dot gains S, and a tentative filename that
already contains a dot is left unchanged — the URL-provided extension is
never overridden. -/
theorem C6_forced_suffix (url : ParsedUrl) (args : Args) (s : String)
    (hsuf : args.add_suffix = some s) (hdot : pyStartswith s "." = true)
    (hne : s ≠ "") (hnq : args.preserve_query_params = false)
    (hscheme : url.scheme ≠ "") (hnet : url.netloc ≠ "") :
    (build_save_path url args).1.map SPath.name =
      some (if isDirLikeOf url args || decide (prospectiveOf url args = "") then
              "index" ++ s
            else if hasDot (prospectiveOf url args) = false then
              prospectiveOf url args ++ s
            else prospectiveOf url args) := by
  have hguard : ¬(url.scheme = "" ∨ url.netloc = "") := by
    rintro (h | h)
    · exact hscheme h
    · exact hnet h
  have hf0 := computeFilename_forced hne (isDirLikeOf url args) (prospectiveOf url args)
  have hbf : buildFilename url args =
      (if isDirLikeOf url args || decide (prospectiveOf url args = "") then
        "index" ++ s
      else if hasDot (prospectiveOf url args) = false then
        prospectiveOf url args ++ s
      else prospectiveOf url args) := by
    unfold buildFilename
    rw [if_neg (by simp [hnq]), hsuf, hf0]
  have hf1ne : buildFilename url args ≠ "" := by
    rw [hbf]
    split
    · exact append_ne_empty_of_right hne
    · split
      · exact append_ne_empty_of_right hne
      · next hd => exact ne_empty_of_hasDot (by simpa using hd)
  rw [build_some hguard hf1ne]
  simp only [Option.map_some]
  exact congrArg some hbf

/-- C6 witness: `https://a.com/file` with forced suffix `.html` yields the
filename `file.html`; the other two branches at concrete inputs. -/
theorem C6_witness :
    (build_save_path ⟨"https", "a.com", "/file", ""⟩
        {autoArgs with add_suffix := some ".html"}).1.map SPath.name =
      some (if isDirLikeOf ⟨"https", "a.com", "/file", ""⟩
              {autoArgs with add_suffix := some ".html"} ||
            decide (prospectiveOf ⟨"https", "a.com", "/file", ""⟩
              {autoArgs with add_suffix := some ".html"} = "") then
              "index" ++ ".html"
            else if hasDot (prospectiveOf ⟨"https", "a.com", "/file", ""⟩
              {autoArgs with add_suffix := some ".html"}) = false then
              prospectiveOf ⟨"https", "a.com", "/file", ""⟩
                {autoArgs with add_suffix := some ".html"} ++ ".html"
            else prospectiveOf ⟨"https", "a.com", "/file", ""⟩
              {autoArgs with add_suffix := some ".html"}) :=
  C6_forced_suffix ⟨"https", "a.com", "/file", ""⟩
    {autoArgs with add_suffix := some ".html"} ".html" rfl (by decide)
    (by decide) rfl (by decide) (by decide)

theorem not_mem_deleteIfFile_self {d0 : Disk} {sp : SPath}
    (hnd : d0.files.Nodup) (hdirs : sp.toFs ∉ d0.dirs) :
    sp.toFs ∉ (deleteIfFile d0 sp).files := by
  unfold deleteIfFile
  split
  · intro hm
    rw [List.Nodup.mem_erase_iff hnd] at hm
    exact hm.1 rfl
  · next hc =>
    intro hm
    apply hc
    simp [Disk.existsB, Disk.isDirB, elemB, hm, hdirs, SPath.toFs_ne_nil]

theorem renameTarget_props {args : Args} {ct : Option String}
    {gx : String → Option String} {sp tgt : SPath}
    (h : renameTarget args ct gx sp = some tgt) :
    args.add_suffix = none ∧ (splitext sp.name).2 = "" := by
  cases hsuf : args.add_suffix with
  | some s =>
    simp [renameTarget, hsuf] at h
  | none =>
    refine ⟨rfl, ?_⟩
    cases ct with
    | none => simp [renameTarget, hsuf] at h
    | some ctv =>
      simp only [renameTarget, hsuf] at h
      split at h
      · split at h
        · simp at h
        · split at h
          · next hcond =>
            rcases hcond.2.2 with hc | hc
            · exact hc.2
            · exact hc.1
          · simp at h
      · simp at h

theorem download_file_ok_ne_none (args : Args) (gx : String → Option String)
    (o : FetchOutcome) (sp : SPath) (d : Disk)
    (herr : o.err = none) (hmk : mkdirOkB d sp = true) :
    (download_file args gx o sp d).1 ≠ none := by
  rcases o with ⟨err, wp, ct⟩
  simp only at herr
  subst herr
  have hmkf : ¬(mkdirOkB d sp = false) := by simp [hmk]
  rcases hrn : renameTarget args ct gx sp with _ | tgt
  · simp [download_file, hmkf, hrn]
  · cases hex : (writeDisk (mkdirDisk d sp) sp).existsB tgt.toFs <;>
      simp [download_file, hmkf, hrn, hex]

theorem download_mem_of_some_self (args : Args) (gx : String → Option String)
    (o : FetchOutcome) (sp : SPath) (d : Disk)
    (h : (download_file args gx o sp d).1 = some sp) :
    sp.toFs ∈ (download_file args gx o sp d).2.files := by
  rcases o with ⟨err, wp, ct⟩
  by_cases hmk : mkdirOkB d sp = false
  · simp [download_file, hmk] at h
  · cases err with
    | some e => cases e <;> simp [download_file, hmk] at h
    | none =>
      rcases hrn : renameTarget args ct gx sp with _ | tgt
      · simp [download_file, hmk, hrn]
        exact mem_insertIfAbsent.mpr (Or.inl rfl)
      · cases hex : (writeDisk (mkdirDisk d sp) sp).existsB tgt.toFs with
        | true =>
          simp [download_file, hmk, hrn, hex]
          exact mem_insertIfAbsent.mpr (Or.inl rfl)
        | false =>
          simp [download_file, hmk, hrn, hex] at h ⊢
          cases h
          exact mem_insertIfAbsent.mpr (Or.inl rfl)

theorem parent_check_ok {d : Disk} {sp : SPath} (hmk : mkdirOkB d sp = true) :
    (d.existsB sp.dirs && !(d.isDirB sp.dirs)) = false := by
  by_cases hnil : sp.dirs = []
  · have hdt : d.isDirB sp.dirs = true := by simp [Disk.isDirB, hnil]
    simp [hdt]
  · have hpos : 0 < sp.dirs.length := List.length_pos.mpr hnil
    have hanc : sp.dirs ∈ ancestorsOf sp.dirs := by
      unfold ancestorsOf
      refine List.mem_map.mpr ⟨sp.dirs.length - 1, ?_, ?_⟩
      · simp only [List.mem_range]
        omega
      · have hlen : sp.dirs.length - 1 + 1 = sp.dirs.length := by omega
        rw [hlen, List.take_length]
    have hfl : elemB sp.dirs d.files = false := by
      have := List.all_eq_true.mp hmk sp.dirs hanc
      simpa using this
    by_cases hdirs : elemB sp.dirs d.dirs = true
    · have hdt : d.isDirB sp.dirs = true := by simp [Disk.isDirB, hdirs]
      simp [hdt]
    · rw [Bool.not_eq_true] at hdirs
      have hex : d.existsB sp.dirs = false := by simp [Disk.existsB, hfl, hdirs]
      simp [hex]

/-- C2 counterexample: the claimed cleanup after a non-network local I/O
error does not happen.  A write error (`except IOError`) records the URL
failed but leaves the partially written file on disk (source lines 732-734
and 642-644 have no `unlink`). -/
theorem C2_counterexample :
    (download_file autoArgs noGuess ⟨some DLErr.ioErr, true, none⟩
      ⟨[], "f.txt"⟩ emptyDisk).1 = none ∧
    ["f.txt"] ∈ (download_file autoArgs noGuess ⟨some DLErr.ioErr, true, none⟩
      ⟨[], "f.txt"⟩ emptyDisk).2.files := by
  refine ⟨by decide, by decide⟩

/-- C2 amended: after a connection error, a non-2xx status, a timeout, or
the generic error clause, any file at the save path is deleted and the
fetch reports failure; after a local I/O write error the fetch reports
failure but the partial file, when one was written, stays on disk. -/
theorem C2_error_cleanup (args : Args) (gx : String → Option String)
    (o : FetchOutcome) (sp : SPath) (d : Disk) (e : DLErr)
    (hnd : d.files.Nodup) (hmk : mkdirOkB d sp = true)
    (hdir : sp.toFs ∉ d.dirs) (herr : o.err = some e) :
    (e ≠ DLErr.ioErr →
      (download_file args gx o sp d).1 = none ∧
        sp.toFs ∉ (download_file args gx o sp d).2.files) ∧
    (e = DLErr.ioErr →
      (download_file args gx o sp d).1 = none ∧
        (download_file args gx o sp d).2.files =
          (if o.wrotePartial = true then insertIfAbsent sp.toFs d.files
           else d.files)) := by
  rcases o with ⟨err, wp, ct⟩
  simp only at herr
  subst herr
  have hmkf : ¬(mkdirOkB d sp = false) := by simp [hmk]
  have hd2nd : (if wp = true then writeDisk (mkdirDisk d sp) sp
      else mkdirDisk d sp).files.Nodup := by
    cases wp
    · exact hnd
    · exact nodup_insertIfAbsent hnd
  have hd2dirs : sp.toFs ∉ (if wp = true then writeDisk (mkdirDisk d sp) sp
      else mkdirDisk d sp).dirs := by
    cases wp <;> exact toFs_not_mem_mkdir_dirs hdir
  have hdel := not_mem_deleteIfFile_self hd2nd hd2dirs
  constructor
  · intro hne2
    cases e with
    | ioErr => exact absurd rfl hne2
    | clientError =>
      cases wp <;> exact ⟨by simp [download_file, hmkf], by
        simpa [download_file, hmkf] using hdel⟩
    | timeoutErr =>
      cases wp <;> exact ⟨by simp [download_file, hmkf], by
        simpa [download_file, hmkf] using hdel⟩
    | otherError =>
      cases wp <;> exact ⟨by simp [download_file, hmkf], by
        simpa [download_file, hmkf] using hdel⟩
  · intro he
    subst he
    cases wp <;> exact ⟨by simp [download_file, hmkf], by simp [download_file, hmkf,
      writeDisk, mkdirDisk]⟩

/-- C2 witness: cleanup after a connection error at a concrete partial
write. -/
theorem C2_witness :
    (download_file autoArgs noGuess ⟨some DLErr.clientError, true, none⟩
      ⟨[], "x"⟩ emptyDisk).1 = none ∧
    SPath.toFs ⟨[], "x"⟩ ∉ (download_file autoArgs noGuess
      ⟨some DLErr.clientError, true, none⟩ ⟨[], "x"⟩ emptyDisk).2.files :=
  (C2_error_cleanup autoArgs noGuess ⟨some DLErr.clientError, true, none⟩
    ⟨[], "x"⟩ emptyDisk DLErr.clientError List.nodup_nil rfl
    (by decide) rfl).1 (by decide)

/-- C8: a successful fetch renames its file only in auto-detect suffix mode
and only when the saved filename has no extension (its splitext stem equals
the whole name); and when the rename target already exists on disk, the
rename is skipped, the file keeps its suffix-less name, and the fetch still
reports success with the original path. -/
theorem C8_rename_policy (args : Args) (gx : String → Option String)
    (o : FetchOutcome) (sp : SPath) (d : Disk) (herr : o.err = none) :
    (∀ q, (download_file args gx o sp d).1 = some q → q ≠ sp →
      args.add_suffix = none ∧ (splitext sp.name).2 = "" ∧
        (splitext sp.name).1 = sp.name) ∧
    (∀ tgt, renameTarget args o.contentType gx sp = some tgt →
      mkdirOkB d sp = true →
      (writeDisk (mkdirDisk d sp) sp).existsB tgt.toFs = true →
      (download_file args gx o sp d).1 = some sp ∧
        sp.toFs ∈ (download_file args gx o sp d).2.files) := by
  rcases o with ⟨err, wp, ct⟩
  simp only at herr
  subst herr
  constructor
  · intro q hq hqs
    by_cases hmk : mkdirOkB d sp = false
    · simp [download_file, hmk] at hq
    · rcases hrn : renameTarget args ct gx sp with _ | tgt
      · simp [download_file, hmk, hrn] at hq
        exact absurd hq.symm hqs
      · cases hex : (writeDisk (mkdirDisk d sp) sp).existsB tgt.toFs with
        | true =>
          simp [download_file, hmk, hrn, hex] at hq
          exact absurd hq.symm hqs
        | false =>
          obtain ⟨h1, h2⟩ := renameTarget_props hrn
          exact ⟨h1, h2, splitext_stem_of_ext_empty h2⟩
  · intro tgt hrn hmk hex
    have hmkf : ¬(mkdirOkB d sp = false) := by simp [hmk]
    constructor
    · simp [download_file, hmkf, hrn, hex]
    · simp only [download_file, hmkf, if_false, hrn, hex, if_true]
      exact mem_insertIfAbsent.mpr (Or.inl rfl)

/-- C8 witness: a fetch of a suffix-less file whose rename target
`about.html` already exists keeps `about` and still succeeds. -/
theorem C8_witness :
    (download_file autoArgs htmlGuess ⟨none, false, some "text/html"⟩
      ⟨[], "about"⟩ ⟨[["about.html"]], []⟩).1 = some ⟨[], "about"⟩ ∧
    SPath.toFs ⟨[], "about"⟩ ∈ (download_file autoArgs htmlGuess
      ⟨none, false, some "text/html"⟩ ⟨[], "about"⟩
      ⟨[["about.html"]], []⟩).2.files :=
  (C8_rename_policy autoArgs htmlGuess ⟨none, false, some "text/html"⟩
    ⟨[], "about"⟩ ⟨[["about.html"]], []⟩ rfl).2 ⟨[], "about.html"⟩
    (by decide) rfl (by decide)

/-- C10 counterexample: the silent-overwrite claim fails in its "recorded
as success with that path" part.  With auto-detect suffix, a pre-existing
candidate `a.com/about` is overwritten but then renamed from the response's
`text/html` Content-Type, and the run records success with `about.html`,
not the candidate path. -/
theorem C10_counterexample :
    (build_save_path ⟨"https", "a.com", "/about", ""⟩ autoArgs).1 =
      some ⟨["a.com"], "about"⟩ ∧
    (runSync autoArgs htmlGuess ⟨[["a.com", "about"]], [["a.com"]]⟩
        [mkTask ⟨"https", "a.com", "/about", ""⟩ ⟨none, false, some "text/html"⟩]).results =
      [⟨⟨"https", "a.com", "/about", ""⟩, Status.success,
        some ⟨["a.com"], "about.html"⟩⟩] := by
  refine ⟨by decide, by decide⟩

/-- C10 amended: in hierarchical mode with skip-existing disabled, a
candidate that already exists as a regular file triggers no deconfliction:
the fetch writes to exactly that path (overwriting it) and the URL is
recorded as success with the path the download returns — the candidate
itself, unless the auto-detect Content-Type rename substitutes the renamed
variant; when no rename happens the overwritten file is on disk at the
candidate path. -/
theorem C10_overwrite (args : Args) (gx : String → Option String)
    (st : RunSt) (t : Task) (p : SPath) (segs : List String)
    (hflat : isFlattening args = false) (hskip : args.skip_existing = false)
    (hb : build_save_path t.url args = (some p, segs))
    (hfile : p.toFs ∈ st.disk.files) (hndir : p.toFs ∉ st.disk.dirs)
    (hmk : mkdirOkB st.disk p = true) (herr : t.outcome.err = none) :
    (processUrl args gx st t).results =
      st.results ++ [⟨t.url, Status.success,
        (download_file args gx t.outcome p st.disk).1⟩] ∧
    (∀ q, (download_file args gx t.outcome p st.disk).1 = some q →
      q = p ∨ (args.add_suffix = none ∧
        renameTarget args t.outcome.contentType gx p = some q)) ∧
    ((download_file args gx t.outcome p st.disk).1 = some p →
      p.toFs ∈ (processUrl args gx st t).disk.files) := by
  have hdir : st.disk.isDirB p.toFs = false := by
    simp [Disk.isDirB, elemB, hndir, SPath.toFs_ne_nil]
  have hpar := parent_check_ok hmk
  have hsome := download_file_ok_ne_none args gx t.outcome p st.disk herr hmk
  have hstep : processUrl args gx st t = afterResolve args gx st t.url t.outcome p := by
    simp [processUrl, hb, hskip, hflat]
  rcases hdl : download_file args gx t.outcome p st.disk with ⟨r1, d2⟩
  cases r1 with
  | none => exact absurd (by rw [hdl]) hsome
  | some fin =>
    have hafter : afterResolve args gx st t.url t.outcome p =
        {st with disk := d2, occupied := insertIfAbsent p st.occupied,
                 results := st.results ++ [⟨t.url, Status.success, some fin⟩],
                 nSuccess := st.nSuccess + 1} := by
      unfold afterResolve
      rw [if_neg (by simp [hdir]), if_neg (by simp [hpar]), hdl]
    refine ⟨?_, ?_, ?_⟩
    · rw [hstep, hafter]
    · intro q hq
      simp only at hq
      have hfq : fin = q := Option.some.inj hq
      subst hfq
      have hmkf : ¬(mkdirOkB st.disk p = false) := by simp [hmk]
      rcases hrn : renameTarget args t.outcome.contentType gx p with _ | tgt
      · left
        simp [download_file, hmkf, herr, hrn] at hdl
        exact hdl.1.symm
      · cases hex : (writeDisk (mkdirDisk st.disk p) p).existsB tgt.toFs with
        | true =>
          left
          simp [download_file, hmkf, herr, hrn, hex] at hdl
          exact hdl.1.symm
        | false =>
          right
          simp [download_file, hmkf, herr, hrn, hex] at hdl
          refine ⟨(renameTarget_props hrn).1, ?_⟩
          rw [← hdl.1]
    · intro hq1
      rw [hstep, hafter]
      rw [← hdl] at hq1
      have := download_mem_of_some_self args gx t.outcome p st.disk hq1
      rw [hdl] at this
      exact this

/-- C10 witness: a hierarchical fetch onto a pre-existing `a.com/f.txt`
with no rename applicable succeeds at exactly that path and keeps it on
disk. -/
theorem C10_witness :
    (processUrl autoArgs noGuess (initSt ⟨[["a.com", "f.txt"]], [["a.com"]]⟩)
        (mkTask ⟨"https", "a.com", "/f.txt", ""⟩ okFetch)).results =
      (initSt ⟨[["a.com", "f.txt"]], [["a.com"]]⟩).results ++
        [⟨⟨"https", "a.com", "/f.txt", ""⟩, Status.success,
          (download_file autoArgs noGuess okFetch ⟨["a.com"], "f.txt"⟩
            ⟨[["a.com", "f.txt"]], [["a.com"]]⟩).1⟩] :=
  (C10_overwrite autoArgs noGuess (initSt ⟨[["a.com", "f.txt"]], [["a.com"]]⟩)
    (mkTask ⟨"https", "a.com", "/f.txt", ""⟩ okFetch) ⟨["a.com"], "f.txt"⟩ []
    rfl rfl (by decide) (by decide) (by decide) (by decide) rfl).1

end DlTool
